import Mathlib

/-!
Verification of the ChromaDB browser dashboard (src/ui/app.py) against its
specification.  The embedding models the row-shaping loop, the CSV export,
the search-result rendering, the top-level render flow with its remote-call
trace, and the cached connection provider.
-/

namespace ChromaSpec

/-- Metadata mapping of an item, modelled as string-keyed integer values. -/
abbrev Meta := List (String × Int)

/-- The embeddings field of a fetch response as the code sees it: absent from
the dict, present but not a list/ndarray, or an actual array of vectors.
Vector components are modelled as rationals. -/
inductive EmbeddingsField where
  | absent : EmbeddingsField
  | nonArray : EmbeddingsField
  | arr : List (List Rat) → EmbeddingsField
deriving Repr, DecidableEq

/-- A fetch response: parallel arrays keyed by `ids`, `documents`,
`metadatas`, `embeddings` (cf. `collection.get` in src/ui/app.py line 48).
`documents`/`metadatas` are `none` when the key maps to a non-list value. -/
structure ItemsResp where
  ids : List String
  documents : Option (List (Option String))
  metadatas : Option (List (Option Meta))
  embeddings : EmbeddingsField
deriving Repr

/-- Python truthiness of an optional list value (`if items[k]`):
false for `None` and for the empty list. -/
def listTruthy {α : Type} : Option (List α) → Bool
  | none => false
  | some l => !l.isEmpty

/-- The single-quote character, used by the Python `str` form of a dict. -/
def sq : Char := Char.ofNat 39

/-- Opening brace character of a dict repr. -/
def lbr : Char := Char.ofNat 123

/-- Closing brace character of a dict repr. -/
def rbr : Char := Char.ofNat 125

/-- Python `str` of one key/value pair of a metadata dict. -/
def pyStrPair (p : String × Int) : String :=
  String.mk [sq] ++ p.1 ++ String.mk [sq] ++ ": " ++ toString p.2

/-- Python `str` of a metadata entry (`str(items[...][i])` in line 65):
`None` prints as the string "None", a dict prints with braces. -/
def pyStrMeta : Option Meta → String
  | none => "None"
  | some kvs =>
      String.mk [lbr] ++ String.intercalate ", " (kvs.map pyStrPair) ++ String.mk [rbr]

/-- One shaped display row (the dict built in lines 62-67). -/
structure Row where
  id : String
  document : Option String
  metadata : Option String
  embeddingSize : Nat
deriving Repr, DecidableEq

instance : Inhabited Row := ⟨⟨"", none, none, 0⟩⟩

/-- The `embedding_size` guard of lines 56-60: 0 unless the embeddings field
is an actual array long enough to contain index `i`. -/
def embeddingSizeAt (e : EmbeddingsField) (i : Nat) : Nat :=
  match e with
  | .arr es => if i < es.length then (es.getD i []).length else 0
  | _ => 0

/-- Indexing an optional parallel array as the code does
(`items[k][i] if items[k] else None`): a falsy field yields `none` without
indexing; a truthy field indexes, and an out-of-range index is a failure
(outer `none`, modelling the Python IndexError). -/
def indexField {α : Type} (field : Option (List (Option α))) (i : Nat) :
    Option (Option α) :=
  if listTruthy field then (field.getD []).get? i else some none

/-- Building the row for index `i` of the loop in lines 55-68.  `none`
models an uncaught exception. -/
def shapeRow (items : ItemsResp) (i : Nat) : Option Row := do
  let id ← items.ids.get? i
  let doc ← indexField items.documents i
  let md ← indexField items.metadatas i
  pure { id := id
         document := doc
         metadata := if listTruthy items.metadatas then some (pyStrMeta md) else none
         embeddingSize := embeddingSizeAt items.embeddings i }

/-- The whole row-shaping loop `for i in range(len(items[ids]))` producing
`df_data`. -/
def shapeRows (items : ItemsResp) : Option (List Row) :=
  (List.range items.ids.length).mapM (shapeRow items)

/-- The row built at index `i`, written out as the code computes it. -/
def rowAt (items : ItemsResp) (i : Nat) : Row :=
  { id := items.ids.getD i ""
    document := match items.documents with
      | none => none
      | some l => l.getD i none
    metadata := match items.metadatas with
      | none => none
      | some l => some (pyStrMeta (l.getD i none))
    embeddingSize := embeddingSizeAt items.embeddings i }

/-- The worked example of the spec: collection with two items. -/
def exItems : ItemsResp :=
  { ids := ["a", "b"]
    documents := some [some "hello", some "world"]
    metadatas := some [some [("k", 1)], none]
    embeddings := .arr [[1/10, 2/10], [3/10, 4/10]] }

/-- A fetch response with no embeddings key and falsy optional arrays. -/
def exItemsNoEmb : ItemsResp :=
  { ids := ["a", "b"], documents := none, metadatas := none, embeddings := .absent }

/-- Line 77: the Embedding Dimensions metric,
`df[...].iloc[0] if not df.empty else 0`. -/
def embeddingDimensions (rows : List Row) : Nat :=
  match rows with
  | [] => 0
  | r :: _ => r.embeddingSize

/-! CSV export (lines 108-114): `df.to_csv(index=False).encode(utf-8)` with
the standard minimal quoting, plus a parser used to state the round trip. -/

/-- Characters that force a CSV field to be quoted. -/
def csvSpecial (c : Char) : Bool :=
  c = ',' || c = '"' || c = '\n' || c = '\r'

/-- Characters an unquoted field may contain up to the next separator. -/
def csvPlain (c : Char) : Bool :=
  !(c = ',' || c = '\n')

/-- Double every quote character (CSV escaping inside a quoted field). -/
def escapeChars : List Char → List Char
  | [] => []
  | c :: cs => if c = '"' then '"' :: '"' :: escapeChars cs else c :: escapeChars cs

/-- Serialize one field: quoted exactly when it contains a special char. -/
def encField (f : List Char) : List Char :=
  if f.any csvSpecial then '"' :: (escapeChars f ++ ['"']) else f

/-- Serialize one record, comma-separating the fields. -/
def encRecord : List (List Char) → List Char
  | [] => []
  | f :: fs =>
    match fs with
    | [] => encField f
    | _ :: _ => encField f ++ ',' :: encRecord fs

/-- Serialize the records, one line per record, each line newline-terminated. -/
def encCsv : List (List (List Char)) → List Char
  | [] => []
  | r :: rs => encRecord r ++ '\n' :: encCsv rs

/-- Parse the remainder of a quoted field (after its opening quote). -/
def parseQuoted : List Char → Option (List Char × List Char)
  | [] => none
  | c :: rest =>
    if c = '"' then
      match rest with
      | [] => some ([], [])
      | c2 :: rest2 =>
        if c2 = '"' then (parseQuoted rest2).map (fun p => ('"' :: p.1, p.2))
        else some ([], rest)
    else (parseQuoted rest).map (fun p => (c :: p.1, p.2))

/-- Parse one field: quoted if it opens with a quote, else up to a separator. -/
def parseField : List Char → Option (List Char × List Char)
  | [] => some ([], [])
  | c :: rest =>
    if c = '"' then parseQuoted rest
    else some ((c :: rest).takeWhile csvPlain, (c :: rest).dropWhile csvPlain)

/-- Parse the fields of one record, consuming its line terminator. -/
def parseFields : Nat → List Char → Option (List (List Char) × List Char)
  | 0, _ => none
  | fuel + 1, s =>
    match parseField s with
    | none => none
    | some (f, rest) =>
      match rest with
      | [] => some ([f], [])
      | c :: rest2 =>
        if c = ',' then (parseFields fuel rest2).map (fun p => (f :: p.1, p.2))
        else if c = '\n' then some ([f], rest2)
        else none

/-- Parse a sequence of records until the input is exhausted. -/
def parseRecords : Nat → List Char → Option (List (List (List Char)))
  | _, [] => some []
  | 0, _ :: _ => none
  | fuel + 1, c :: s =>
    match parseFields ((c :: s).length + 1) (c :: s) with
    | none => none
    | some (r, rest) => (parseRecords fuel rest).map (fun rs => r :: rs)

/-- Parse a whole CSV text. -/
def parseCsv (s : List Char) : Option (List (List (List Char))) :=
  parseRecords s.length s

/-- The displayable string form of a row, in column order
ID, Document, Metadata, Embedding Size; nulls display as empty cells. -/
def Row.displayFields (r : Row) : List String :=
  [r.id, r.document.getD "", r.metadata.getD "", toString r.embeddingSize]

/-- The header row written by the export. -/
def headerFields : List String :=
  ["ID", "Document", "Metadata", "Embedding Size"]

/-- The records the export writes: header first, then one per row. -/
def csvRecords (rows : List Row) : List (List (List Char)) :=
  (headerFields :: rows.map Row.displayFields).map (fun rec => rec.map String.toList)

/-- The CSV text of the shaped rows, `df.to_csv(index=False)`. -/
def toDelimitedText (rows : List Row) : String :=
  String.mk (encCsv (csvRecords rows))

/-- The bytes handed to the download button, `.encode(utf-8)`. -/
def toDelimitedBytes (rows : List Row) : ByteArray :=
  (toDelimitedText rows).toUTF8

/-! Search (lines 86-101): the query call and the zipped rendering. -/

/-- One item as stored by the remote service, with its distance to the
current query text. -/
structure StoredItem where
  document : Option String
  metadata : Option Meta
  distance : Rat
deriving Repr, DecidableEq

/-- One rendered search result: document, metadata and distance together. -/
structure SearchResult where
  document : Option String
  metadata : Option Meta
  distance : Rat
deriving Repr, DecidableEq

/-- A query response: per-query parallel arrays (one inner array per query
text, and the code sends a single query text). -/
structure QueryResp where
  documents : List (List (Option String))
  metadatas : List (List (Option Meta))
  distances : List (List Rat)
deriving Repr

/-- The distance order on stored items. -/
def distLE (a b : StoredItem) : Prop := a.distance ≤ b.distance

instance : DecidableRel distLE := fun a b =>
  inferInstanceAs (Decidable (a.distance ≤ b.distance))

instance : IsTotal StoredItem distLE := ⟨fun a b => le_total a.distance b.distance⟩

instance : IsTrans StoredItem distLE := ⟨fun _ _ _ hab hbc => le_trans hab hbc⟩

/-- Modelled from the spec: the remote service nearest-neighbor query
endpoint (the chromadb client library is not part of this repository).
For the single query text the code sends, it returns the stored items
ranked ascending by distance, truncated to `nResults`, as parallel arrays
wrapped in one outer layer (one inner array per query text). -/
def serviceQuery (stored : List StoredItem) (nResults : Nat) : QueryResp :=
  let ranked := (stored.insertionSort distLE).take nResults
  { documents := [ranked.map StoredItem.document]
    metadatas := [ranked.map StoredItem.metadata]
    distances := [ranked.map StoredItem.distance] }

/-- The `zip` of lines 94-98: documents, metadatas and distances of the
first query, truncated to the shortest array, in response order. -/
def renderSearchResults (docs : List (Option String)) (metas : List (Option Meta))
    (dists : List Rat) : List SearchResult :=
  (docs.zip (metas.zip dists)).map
    (fun p => { document := p.1, metadata := p.2.1, distance := p.2.2 })

/-- The search block of lines 86-101: an empty query short-circuits
(`if search_query`); otherwise one query call, rendering the arrays at
index 0 of the response. -/
def searchSection (stored : List StoredItem) (queryText : String) (topK : Nat) :
    Option (List SearchResult) :=
  if queryText = "" then none
  else
    let results := serviceQuery stored topK
    some (renderSearchResults (results.documents.getD 0 [])
      (results.metadatas.getD 0 []) (results.distances.getD 0 []))

/-! The top-level render flow with its remote-call trace. -/

/-- A collection as listed by the service. -/
structure Collection where
  id : String
  name : String
  metadata : Option Meta
deriving Repr, DecidableEq

/-- The remote service behind the dashboard: its collections, and the fetch
and query data it would return for a given collection name. -/
structure Service where
  collections : List Collection
  itemsOf : String → ItemsResp
  storedOf : String → List StoredItem

/-- One remote call issued during a render cycle. -/
inductive RemoteCall where
  | listCollections : RemoteCall
  | getCollection : String → RemoteCall
  | getItems : String → RemoteCall
  | queryCall : String → Nat → RemoteCall
deriving Repr, DecidableEq

/-- Whether a remote call hits the query endpoint. -/
def isQueryCall : RemoteCall → Bool
  | .queryCall _ _ => true
  | _ => false

/-- The terminal UI state of one render cycle. -/
inductive RenderOutput where
  | noCollections : RenderOutput
  | blank : RenderOutput
  | noItems : RenderOutput
  | failure : RenderOutput
  | content : List Row → Nat → Nat → Bool → Option (List SearchResult) → String →
      RenderOutput
deriving Repr

/-- One render cycle of the dashboard (lines 18-116): list collections,
warn when none; fetch the selected collection items, inform when empty;
otherwise shape rows, compute the metrics, run the search block when a
query was typed, and offer the CSV download.  Returns the reached UI state
and the trace of remote calls. -/
def renderApp (svc : Service) (selected : String) (searchQuery : String)
    (topK : Nat) : RenderOutput × List RemoteCall :=
  if (svc.collections.map Collection.name).isEmpty then
    (.noCollections, [.listCollections])
  else if selected = "" then (.blank, [.listCollections])
  else
    let items := svc.itemsOf selected
    if items.ids.isEmpty then
      (.noItems, [.listCollections, .getCollection selected, .getItems selected])
    else
      match shapeRows items with
      | none => (.failure, [.listCollections, .getCollection selected, .getItems selected])
      | some rows =>
          let searchCalls : List RemoteCall :=
            if searchQuery = "" then [] else [.queryCall searchQuery topK]
          (.content rows items.ids.length (embeddingDimensions rows)
             (listTruthy items.metadatas)
             (searchSection (svc.storedOf selected) searchQuery topK)
             (toDelimitedText rows),
           [.listCollections, .getCollection selected, .getItems selected] ++ searchCalls)

/-! The connection provider (lines 10-16). -/

/-- The process environment, a finite map from names to values. -/
abbrev Env := List (String × String)

/-- Environment lookup with a default, `os.getenv(key, default)`. -/
def getenv (env : Env) (key dflt : String) : String :=
  match env.lookup key with
  | some v => v
  | none => dflt

/-- The constructed client handle, bound to a host and a port. -/
structure Client where
  host : String
  port : String
deriving Repr, DecidableEq

/-- The body of `init_client`: read `CHROMA_HOST` (default `localhost`) and
`CHROMA_PORT` (default `8000`) and build the client. -/
def init_client (env : Env) : Client :=
  { host := getenv env "CHROMA_HOST" "localhost"
    port := getenv env "CHROMA_PORT" "8000" }

/-- Modelled from the spec: the `st.cache_resource` decorator (streamlit
library code, not part of this repository) memoizes the first constructed
client for the life of the process and returns it on every later call. -/
def cachedInitClient : Option Client → Env → Client × Option Client
  | some c, _ => (c, some c)
  | none, env => (init_client env, some (init_client env))

/-- A sequence of uses of the cached provider, each under a possibly
different environment; returns the client each use observes. -/
def runInitCalls : Option Client → List Env → List Client
  | _, [] => []
  | cache, env :: rest =>
    match cachedInitClient cache env with
    | (c, cacheNew) => c :: runInitCalls cacheNew rest


/-- A `mapM` over `Option` succeeds pointwise. -/
theorem mapM_option_eq_some {α β : Type} (f : α → Option β) (g : α → β) :
    ∀ (l : List α), (∀ a ∈ l, f a = some (g a)) → l.mapM f = some (l.map g) := by
  intro l
  induction l with
  | nil => intro _; rfl
  | cons a l ih =>
      intro h
      have ha : f a = some (g a) := h a (List.mem_cons_self a l)
      have hl : l.mapM f = some (l.map g) := ih fun b hb => h b (List.mem_cons_of_mem a hb)
      rw [List.mapM_cons, ha, hl]
      rfl

/-- In-range lookup returns the default-indexed element. -/
theorem getElem?_eq_some_getD {α : Type} (l : List α) (i : Nat) (d : α)
    (h : i < l.length) : l[i]? = some (l.getD i d) := by
  rw [List.getElem?_eq_getElem h]
  rw [List.getD_eq_getElem?_getD, List.getElem?_eq_getElem h]
  rfl

/-- At an in-range index of a response whose optional arrays are parallel to
`ids`, one loop iteration succeeds and builds `rowAt`. -/
theorem shapeRow_eq_some (items : ItemsResp)
    (hdoc : ∀ l, items.documents = some l → l.length = items.ids.length)
    (hmet : ∀ l, items.metadatas = some l → l.length = items.ids.length)
    (i : Nat) (hi : i < items.ids.length) :
    shapeRow items i = some (rowAt items i) := by
  have hid : items.ids[i]? = some (items.ids.getD i "") :=
    getElem?_eq_some_getD _ _ _ hi
  cases hd : items.documents with
  | none =>
      cases hm : items.metadatas with
      | none =>
          simp [shapeRow, indexField, listTruthy, hd, hm]
          rw [hid]
          simp only [Option.some_bind]
          simp [rowAt, hd, hm]
      | some lm =>
          have hlen : lm.length = items.ids.length := hmet lm hm
          have him : i < lm.length := hlen ▸ hi
          have hne : lm.isEmpty = false := by
            cases lm with
            | nil => exact absurd him (by simp)
            | cons a t => rfl
          have hgm : lm[i]? = some (lm.getD i none) := getElem?_eq_some_getD _ _ _ him
          simp [shapeRow, indexField, listTruthy, hd, hm, hne]
          rw [hid, hgm]
          simp only [Option.some_bind]
          simp [rowAt, hd, hm]
  | some ld =>
      have hlend : ld.length = items.ids.length := hdoc ld hd
      have hid' : i < ld.length := hlend ▸ hi
      have hned : ld.isEmpty = false := by
        cases ld with
        | nil => exact absurd hid' (by simp)
        | cons a t => rfl
      have hgd : ld[i]? = some (ld.getD i none) := getElem?_eq_some_getD _ _ _ hid'
      cases hm : items.metadatas with
      | none =>
          simp [shapeRow, indexField, listTruthy, hd, hm, hned]
          rw [hid, hgd]
          simp only [Option.some_bind]
          simp [rowAt, hd, hm]
      | some lm =>
          have hlen : lm.length = items.ids.length := hmet lm hm
          have him : i < lm.length := hlen ▸ hi
          have hne : lm.isEmpty = false := by
            cases lm with
            | nil => exact absurd him (by simp)
            | cons a t => rfl
          have hgm : lm[i]? = some (lm.getD i none) := getElem?_eq_some_getD _ _ _ him
          simp [shapeRow, indexField, listTruthy, hd, hm, hne, hned]
          rw [hid, hgd, hgm]
          simp only [Option.some_bind]
          simp [rowAt, hd, hm]

/-- The whole loop succeeds and produces exactly `rowAt` at each index. -/
theorem shapeRows_eq_map (items : ItemsResp)
    (hdoc : ∀ l, items.documents = some l → l.length = items.ids.length)
    (hmet : ∀ l, items.metadatas = some l → l.length = items.ids.length) :
    shapeRows items = some ((List.range items.ids.length).map (rowAt items)) :=
  mapM_option_eq_some _ _ _ fun i hmem =>
    shapeRow_eq_some items hdoc hmet i (List.mem_range.mp hmem)

/-- Looking up index `i` in the shaped list gives `rowAt i`. -/
theorem shaped_get? (items : ItemsResp) (i : Nat) (hi : i < items.ids.length) :
    ((List.range items.ids.length).map (rowAt items)).get? i =
      some (rowAt items i) := by
  rw [List.get?_eq_getElem?]
  rw [List.getElem?_map]
  rw [List.getElem?_range hi]
  rfl

/-- C1: for every valid fetch response (optional arrays parallel to `ids`),
row shaping succeeds with exactly one row per id, and the row at index `i`
has `id = ids[i]`, `document = documents[i]` when the documents array is
present (else null), `metadata` the stringified `metadatas[i]` when the
metadatas array is present (else null), and `embeddingSize = len(embeddings[i])`
when the embeddings array is present and long enough, else 0. -/
theorem shapeRows_alignment (items : ItemsResp)
    (hdoc : ∀ l, items.documents = some l → l.length = items.ids.length)
    (hmet : ∀ l, items.metadatas = some l → l.length = items.ids.length) :
    ∃ rows, shapeRows items = some rows ∧
      rows.length = items.ids.length ∧
      ∀ i, i < items.ids.length →
        rows.get? i = some
          { id := items.ids.getD i ""
            document := match items.documents with
              | none => none
              | some l => l.getD i none
            metadata := match items.metadatas with
              | none => none
              | some l => some (pyStrMeta (l.getD i none))
            embeddingSize := match items.embeddings with
              | .arr es => if i < es.length then (es.getD i []).length else 0
              | .absent => 0
              | .nonArray => 0 } := by
  refine ⟨(List.range items.ids.length).map (rowAt items),
    shapeRows_eq_map items hdoc hmet, by simp, ?_⟩
  intro i hi
  rw [shaped_get? items i hi]
  cases he : items.embeddings with
  | absent => simp [rowAt, embeddingSizeAt, he]
  | nonArray => simp [rowAt, embeddingSizeAt, he]
  | arr es => simp [rowAt, embeddingSizeAt, he]

/-- C1 witness: the spec example collection with two items. -/
theorem shapeRows_alignment_witness :
    ∃ rows, shapeRows exItems = some rows ∧
      rows.length = exItems.ids.length ∧
      ∀ i, i < exItems.ids.length →
        rows.get? i = some
          { id := exItems.ids.getD i ""
            document := match exItems.documents with
              | none => none
              | some l => l.getD i none
            metadata := match exItems.metadatas with
              | none => none
              | some l => some (pyStrMeta (l.getD i none))
            embeddingSize := match exItems.embeddings with
              | .arr es => if i < es.length then (es.getD i []).length else 0
              | .absent => 0
              | .nonArray => 0 } :=
  shapeRows_alignment exItems
    (by intro l hl; cases hl; rfl)
    (by intro l hl; cases hl; rfl)

/-- Indexing the shaped list through `getD` gives `rowAt`. -/
theorem shaped_getD (items : ItemsResp) (i : Nat) (hi : i < items.ids.length) :
    ((List.range items.ids.length).map (rowAt items)).getD i default =
      rowAt items i := by
  rw [List.getD_eq_getElem?_getD, List.getElem?_map, List.getElem?_range hi]
  rfl

/-- C2: when the embeddings field is absent, not an array, or shorter than
`ids`, shaping a response whose other optional arrays are parallel to `ids`
does not fail, and every row whose index has no embedding entry gets
`embeddingSize = 0`; with the field entirely absent, every row does. -/
theorem shapeRows_embeddings_default (items : ItemsResp)
    (hdoc : ∀ l, items.documents = some l → l.length = items.ids.length)
    (hmet : ∀ l, items.metadatas = some l → l.length = items.ids.length) :
    ∃ rows, shapeRows items = some rows ∧
      rows.length = items.ids.length ∧
      (∀ i, i < rows.length →
        (∀ es, items.embeddings = .arr es → es.length ≤ i) →
        (rows.getD i default).embeddingSize = 0) ∧
      (items.embeddings = .absent → ∀ r ∈ rows, r.embeddingSize = 0) := by
  refine ⟨(List.range items.ids.length).map (rowAt items),
    shapeRows_eq_map items hdoc hmet, by simp, ?_, ?_⟩
  · intro i hi hmiss
    have hi' : i < items.ids.length := by simpa using hi
    rw [shaped_getD items i hi']
    cases he : items.embeddings with
    | absent => simp [rowAt, embeddingSizeAt, he]
    | nonArray => simp [rowAt, embeddingSizeAt, he]
    | arr es =>
        have hle : es.length ≤ i := hmiss es he
        simp [rowAt, embeddingSizeAt, he, Nat.not_lt.mpr hle]
  · intro habs r hr
    rcases List.mem_map.mp hr with ⟨i, _, hEq⟩
    rw [← hEq]
    simp [rowAt, embeddingSizeAt, habs]

/-- C2 witness: a two-item response whose embeddings key is absent. -/
theorem shapeRows_embeddings_default_witness :
    ∃ rows, shapeRows exItemsNoEmb = some rows ∧
      rows.length = exItemsNoEmb.ids.length ∧
      (∀ i, i < rows.length →
        (∀ es, exItemsNoEmb.embeddings = .arr es → es.length ≤ i) →
        (rows.getD i default).embeddingSize = 0) ∧
      (exItemsNoEmb.embeddings = .absent → ∀ r ∈ rows, r.embeddingSize = 0) :=
  shapeRows_embeddings_default exItemsNoEmb
    (by intro l hl; cases hl)
    (by intro l hl; cases hl)

/-- A non-special char passes the unquoted-field filter. -/
theorem csvPlain_of_not_special (c : Char) (h : csvSpecial c = false) :
    csvPlain c = true := by
  simp only [csvSpecial, Bool.or_eq_false_iff, decide_eq_false_iff_not] at h
  simp [csvPlain, h.1.1.1, h.1.2]

/-- Parsing a quoted body: the escaped field followed by the closing quote
is recovered exactly, for any continuation not opening with a quote. -/
theorem parseQuoted_escape (f : List Char) :
    ∀ (t : List Char), (∀ t2, t ≠ '"' :: t2) →
      parseQuoted (escapeChars f ++ '"' :: t) = some (f, t) := by
  induction f with
  | nil =>
      intro t ht
      cases t with
      | nil => rfl
      | cons c2 t2 =>
          have hc2 : ¬c2 = '"' := fun he => ht t2 (by rw [he])
          simp [escapeChars, parseQuoted, hc2]
  | cons c cs ih =>
      intro t ht
      by_cases hc : c = '"'
      · subst hc
        have he1 : escapeChars ('"' :: cs) ++ '"' :: t
            = '"' :: '"' :: (escapeChars cs ++ '"' :: t) := by
          simp [escapeChars]
        rw [he1]
        simp [parseQuoted, ih t ht]
      · have he1 : escapeChars (c :: cs) ++ '"' :: t
            = c :: (escapeChars cs ++ '"' :: t) := by
          simp [escapeChars, hc]
        rw [he1, parseQuoted.eq_def]
        simp only []
        rw [if_neg hc, ih t ht]
        rfl

/-- An all-plain leading segment is exactly what `takeWhile` keeps before a separator. -/
theorem takeWhile_plain (f : List Char) (hf : ∀ c ∈ f, csvSpecial c = false)
    (d : Char) (hd : csvPlain d = false) (rest : List Char) :
    (f ++ d :: rest).takeWhile csvPlain = f ∧
      (f ++ d :: rest).dropWhile csvPlain = d :: rest := by
  induction f with
  | nil => simp [List.takeWhile, List.dropWhile, hd]
  | cons c cs ih =>
      have hc : csvPlain c = true :=
        csvPlain_of_not_special c (hf c (List.mem_cons_self c cs))
      have ih' := ih fun x hx => hf x (List.mem_cons_of_mem c hx)
      simp [List.takeWhile, List.dropWhile, hc, ih'.1, ih'.2]

/-- Parsing an encoded field recovers it exactly, up to the separator. -/
theorem parseField_enc (f : List Char) (d : Char) (hd : d = ',' ∨ d = '\n')
    (rest : List Char) :
    parseField (encField f ++ d :: rest) = some (f, d :: rest) := by
  have hdq : ¬d = '"' := by rcases hd with h | h <;> simp [h]
  have hdp : csvPlain d = false := by rcases hd with h | h <;> simp [csvPlain, h]
  by_cases hq : f.any csvSpecial
  · have : encField f ++ d :: rest = '"' :: (escapeChars f ++ '"' :: d :: rest) := by
      simp [encField, hq]
    rw [this]
    simp only [parseField, if_pos rfl]
    refine parseQuoted_escape f (d :: rest) ?_
    intro t2 he
    injection he with h1 _
    exact hdq h1
  · have hf : ∀ c ∈ f, csvSpecial c = false := by
      intro c hc
      by_contra hcs
      exact hq (List.any_eq_true.mpr ⟨c, hc, by simpa using hcs⟩)
    have henc : encField f = f := by simp [encField, hq]
    rw [henc]
    cases f with
    | nil =>
        simp [parseField, hdq, List.takeWhile, List.dropWhile, hdp]
    | cons c cs =>
        have hc : ¬c = '"' := by
          have h2 := hf c (List.mem_cons_self c cs)
          simp only [csvSpecial, Bool.or_eq_false_iff, decide_eq_false_iff_not] at h2
          exact h2.1.1.2
        have htk := takeWhile_plain (c :: cs) hf d hdp rest
        simp only [List.cons_append, parseField, if_neg hc]
        rw [← List.cons_append]
        rw [htk.1, htk.2]

/-- Parsing an encoded record consumes it and its newline exactly. -/
theorem parseFields_enc (r : List (List Char)) :
    ∀ (rest : List Char) (fuel : Nat), r ≠ [] → r.length ≤ fuel →
      parseFields fuel (encRecord r ++ '\n' :: rest) = some (r, rest) := by
  induction r with
  | nil => intro rest fuel h _; exact absurd rfl h
  | cons f fs ih =>
      intro rest fuel _ hlen
      cases fuel with
      | zero => exact absurd hlen (by simp)
      | succ k =>
          cases fs with
          | nil =>
              have hp := parseField_enc f '\n' (Or.inr rfl) rest
              have he : encRecord [f] = encField f := rfl
              rw [he, parseFields.eq_def]
              simp only []
              rw [hp]
              simp
          | cons f2 fs2 =>
              have he : encRecord (f :: f2 :: fs2) ++ '\n' :: rest
                  = encField f ++ ',' :: (encRecord (f2 :: fs2) ++ '\n' :: rest) := by
                simp [encRecord]
              have hp := parseField_enc f ',' (Or.inl rfl)
                (encRecord (f2 :: fs2) ++ '\n' :: rest)
              have hih : parseFields k (encRecord (f2 :: fs2) ++ '\n' :: rest)
                  = some (f2 :: fs2, rest) :=
                ih rest k (by simp) (by simpa using hlen)
              rw [he, parseFields.eq_def]
              simp only []
              rw [hp]
              simp [hih]

/-- A record has at most one more field than its encoding has characters. -/
theorem length_le_encRecord (r : List (List Char)) :
    r.length ≤ (encRecord r).length + 1 := by
  induction r with
  | nil => simp
  | cons f fs ih =>
      cases fs with
      | nil => simp
      | cons f2 fs2 =>
          have he : encRecord (f :: f2 :: fs2)
              = encField f ++ ',' :: encRecord (f2 :: fs2) := by
            simp [encRecord]
          rw [he]
          have ih2 : fs2.length + 1 ≤ (encRecord (f2 :: fs2)).length + 1 := by
            simpa using ih
          simp only [List.length_cons, List.length_append]
          omega

/-- There are at most as many records as encoded characters. -/
theorem length_le_encCsv (recs : List (List (List Char))) :
    recs.length ≤ (encCsv recs).length := by
  induction recs with
  | nil => simp
  | cons r rs ih =>
      simp only [encCsv, List.length_cons, List.length_append]
      omega

/-- Parsing the encoded records with enough fuel recovers them all. -/
theorem parseRecords_enc (recs : List (List (List Char))) :
    ∀ (fuel : Nat), (∀ r ∈ recs, r ≠ []) → recs.length ≤ fuel →
      parseRecords fuel (encCsv recs) = some recs := by
  induction recs with
  | nil =>
      intro fuel _ _
      cases fuel with
      | zero => rfl
      | succ k => rfl
  | cons r rs ih =>
      intro fuel hne hlen
      cases fuel with
      | zero => exact absurd hlen (by simp)
      | succ k =>
          have hrne : r ≠ [] := hne r (List.mem_cons_self r rs)
          have hcons : ∃ c s, encRecord r ++ '\n' :: encCsv rs = c :: s := by
            cases hE : encRecord r ++ '\n' :: encCsv rs with
            | nil =>
                exact absurd hE (by simp)
            | cons c s => exact ⟨c, s, rfl⟩
          rcases hcons with ⟨c, s, hE⟩
          have hflen : r.length ≤ (c :: s).length + 1 := by
            have h1 := length_le_encRecord r
            have h2 : (encRecord r).length ≤ (c :: s).length := by
              rw [← hE]
              simp
            omega
          have hfields0 := parseFields_enc r (encCsv rs) ((c :: s).length + 1) hrne hflen
          have hfields : parseFields ((c :: s).length + 1) (c :: s) = some (r, encCsv rs) := by
            rw [hE] at hfields0
            exact hfields0
          have hih : parseRecords k (encCsv rs) = some rs :=
            ih k (fun x hx => hne x (List.mem_cons_of_mem r hx)) (by simpa using hlen)
          have he2 : encCsv (r :: rs) = c :: s := by
            rw [← hE]
            rfl
          rw [he2, parseRecords.eq_def]
          simp only []
          rw [hfields]
          simp [hih]

/-- Round trip at the character level: parsing an encoding of records each
having at least one field yields the records back. -/
theorem parseCsv_encCsv (recs : List (List (List Char)))
    (h : ∀ r ∈ recs, r ≠ []) : parseCsv (encCsv recs) = some recs :=
  parseRecords_enc recs (encCsv recs).length h (length_le_encCsv recs)

/-- Every record the export writes has its four fields. -/
theorem csvRecords_ne_nil (rows : List Row) :
    ∀ r ∈ csvRecords rows, r ≠ [] := by
  intro r hr
  rcases List.mem_map.mp hr with ⟨rec, hrec, hEq⟩
  rcases List.mem_cons.mp hrec with h | h
  · subst h
    rw [← hEq]
    simp [headerFields]
  · rcases List.mem_map.mp h with ⟨row, _, hEq2⟩
    rw [← hEq, ← hEq2]
    simp [Row.displayFields]

/-- C3: the export of any N shaped rows is text beginning with the header
line `ID,Document,Metadata,Embedding Size`, has exactly one data record per
row, and parsing it back yields the header plus the N rows' displayable
string forms, field by field (round-trip stability, no filtering, no
limit). -/
theorem export_roundTrip (rows : List Row) :
    (∃ t, (toDelimitedText rows).toList
        = "ID,Document,Metadata,Embedding Size\n".toList ++ t) ∧
    parseCsv (toDelimitedText rows).toList
      = some ((headerFields :: rows.map Row.displayFields).map
          (fun rec => rec.map String.toList)) ∧
    ((headerFields :: rows.map Row.displayFields).map
        (fun rec => rec.map String.toList)).length = rows.length + 1 := by
  have hts : (toDelimitedText rows).toList = encCsv (csvRecords rows) := rfl
  have hsplit : csvRecords rows
      = (headerFields.map String.toList)
        :: (rows.map Row.displayFields).map (fun rec => rec.map String.toList) := by
    simp [csvRecords]
  refine ⟨?_, ?_, by simp⟩
  · refine ⟨encCsv ((rows.map Row.displayFields).map (fun rec => rec.map String.toList)), ?_⟩
    rw [hts, hsplit]
    have hhdr : encRecord (headerFields.map String.toList) ++ ['\n']
        = "ID,Document,Metadata,Embedding Size\n".toList := by decide
    rw [← hhdr]
    rw [encCsv]
    rw [List.append_cons]
  · rw [hts, parseCsv_encCsv (csvRecords rows) (csvRecords_ne_nil rows)]
    rw [hsplit]
    rfl

/-- The rendered result count is the minimum of the three array lengths. -/
theorem renderLength (docs : List (Option String)) (metas : List (Option Meta))
    (dists : List Rat) :
    (renderSearchResults docs metas dists).length
      = min docs.length (min metas.length dists.length) := by
  simp [renderSearchResults]

/-- The rendered results carry the input entries through unchanged, each
truncated at the shortest array: absent (`none`) entries are preserved as
markers, never errors. -/
theorem render_proj (docs : List (Option String)) :
    ∀ (metas : List (Option Meta)) (dists : List Rat),
      (renderSearchResults docs metas dists).map SearchResult.document
          = docs.take (min docs.length (min metas.length dists.length)) ∧
      (renderSearchResults docs metas dists).map SearchResult.metadata
          = metas.take (min docs.length (min metas.length dists.length)) ∧
      (renderSearchResults docs metas dists).map SearchResult.distance
          = dists.take (min docs.length (min metas.length dists.length)) := by
  induction docs with
  | nil => intro metas dists; simp [renderSearchResults]
  | cons d ds ih =>
      intro metas dists
      cases metas with
      | nil => simp [renderSearchResults]
      | cons m ms =>
          cases dists with
          | nil => simp [renderSearchResults]
          | cons t ts =>
              have ih2 := ih ms ts
              simp only [renderSearchResults, List.zip_cons_cons, List.map_cons,
                List.length_cons, Nat.succ_min_succ, List.take_succ_cons] at ih2 ⊢
              exact ⟨by rw [ih2.1], by rw [ih2.2.1], by rw [ih2.2.2]⟩

/-- Rendering the three projections of one item list is a single map. -/
theorem render_of_maps (l : List StoredItem) :
    renderSearchResults (l.map StoredItem.document) (l.map StoredItem.metadata)
        (l.map StoredItem.distance)
      = l.map (fun it =>
          { document := it.document, metadata := it.metadata,
            distance := it.distance : SearchResult }) := by
  induction l with
  | nil => rfl
  | cons a l ih =>
      simp only [List.map_cons, renderSearchResults, List.zip_cons_cons] at ih ⊢
      rw [ih]

/-- C10: the number of rendered search results equals the minimum of the
lengths of the first-query documents, metadatas and distances arrays;
entries beyond the shortest array are silently dropped, not errors. -/
theorem search_zip_truncates (docs : List (Option String))
    (metas : List (Option Meta)) (dists : List Rat) :
    (renderSearchResults docs metas dists).length
      = min docs.length (min metas.length dists.length) :=
  renderLength docs metas dists

/-- Two stored items used to exercise the search path. -/
def exStored : List StoredItem :=
  [{ document := some "world", metadata := none, distance := 2 },
   { document := some "hello", metadata := some [("k", 1)], distance := 1 }]

/-- C5: for a non-empty query and any topK in [1,10], the search block
returns at most topK results, exposing the document, metadata and distance
of the same ranked item at each index, with distances non-decreasing (the
ranking of the service response order, no re-sorting). -/
theorem search_ranked (stored : List StoredItem) (queryText : String) (topK : Nat)
    (hq : queryText ≠ "") (h1 : 1 ≤ topK) (h2 : topK ≤ 10) :
    ∃ res, searchSection stored queryText topK = some res ∧
      res.length ≤ topK ∧
      res.Pairwise (fun a b => a.distance ≤ b.distance) ∧
      ∀ i : Nat, res.get? i
        = (((stored.insertionSort distLE).take topK).get? i).map
            (fun it => { document := it.document, metadata := it.metadata,
                         distance := it.distance }) := by
  refine ⟨((stored.insertionSort distLE).take topK).map
      (fun it => { document := it.document, metadata := it.metadata,
                   distance := it.distance : SearchResult }), ?_, ?_, ?_, ?_⟩
  · simp [searchSection, hq, serviceQuery]
    rw [← List.map_take, ← List.map_take, ← List.map_take, ← List.map_take]
    exact render_of_maps _
  · simp only [List.length_map, List.length_take]
    exact min_le_left _ _
  · have hs : (stored.insertionSort distLE).Pairwise distLE :=
      List.sorted_insertionSort distLE stored
    have ht : ((stored.insertionSort distLE).take topK).Pairwise distLE :=
      List.Pairwise.sublist (List.take_sublist _ _) hs
    exact List.pairwise_map.mpr ht
  · intro i
    rw [List.get?_eq_getElem?, List.get?_eq_getElem?, List.getElem?_map]

/-- C5 witness: searching two stored items with topK = 1. -/
theorem search_ranked_witness :
    ("hello" ≠ "" ∧ 1 ≤ 1 ∧ 1 ≤ 10) ∧
    ∃ res, searchSection exStored "hello" 1 = some res ∧
      res.length ≤ 1 ∧
      res.Pairwise (fun a b => a.distance ≤ b.distance) ∧
      ∀ i : Nat, res.get? i
        = (((exStored.insertionSort distLE).take 1).get? i).map
            (fun it => { document := it.document, metadata := it.metadata,
                         distance := it.distance }) :=
  ⟨⟨by decide, by decide, by decide⟩,
   search_ranked exStored "hello" 1 (by decide) (by decide) (by decide)⟩

/-- C4: absent optional fields never raise: shaping succeeds with the null
marker (document/metadata) or 0 (embedding length) substituted, and the
search-result path carries per-entry absent markers through unchanged. -/
theorem optional_fields_tolerated (items : ItemsResp)
    (hdoc : items.documents = none ∨
      ∃ l, items.documents = some l ∧ l.length = items.ids.length)
    (hmet : items.metadatas = none ∨
      ∃ l, items.metadatas = some l ∧ l.length = items.ids.length) :
    (∃ rows, shapeRows items = some rows ∧
      (items.documents = none → ∀ r ∈ rows, r.document = none) ∧
      (items.metadatas = none → ∀ r ∈ rows, r.metadata = none) ∧
      ((items.embeddings = .absent ∨ items.embeddings = .nonArray) →
        ∀ r ∈ rows, r.embeddingSize = 0)) ∧
    ∀ (docs : List (Option String)) (metas : List (Option Meta)) (dists : List Rat),
      (renderSearchResults docs metas dists).map SearchResult.document
          = docs.take (min docs.length (min metas.length dists.length)) ∧
      (renderSearchResults docs metas dists).map SearchResult.metadata
          = metas.take (min docs.length (min metas.length dists.length)) := by
  have hdoc2 : ∀ l, items.documents = some l → l.length = items.ids.length := by
    intro l hl
    rcases hdoc with h | ⟨l2, h2, hlen⟩
    · rw [h] at hl; cases hl
    · rw [h2] at hl
      injection hl with h3
      rw [← h3]
      exact hlen
  have hmet2 : ∀ l, items.metadatas = some l → l.length = items.ids.length := by
    intro l hl
    rcases hmet with h | ⟨l2, h2, hlen⟩
    · rw [h] at hl; cases hl
    · rw [h2] at hl
      injection hl with h3
      rw [← h3]
      exact hlen
  constructor
  · refine ⟨(List.range items.ids.length).map (rowAt items),
      shapeRows_eq_map items hdoc2 hmet2, ?_, ?_, ?_⟩
    · intro hnone r hr
      rcases List.mem_map.mp hr with ⟨i, _, hEq⟩
      rw [← hEq]
      simp [rowAt, hnone]
    · intro hnone r hr
      rcases List.mem_map.mp hr with ⟨i, _, hEq⟩
      rw [← hEq]
      simp [rowAt, hnone]
    · intro habs r hr
      rcases List.mem_map.mp hr with ⟨i, _, hEq⟩
      rw [← hEq]
      rcases habs with h | h <;> simp [rowAt, embeddingSizeAt, h]
  · intro docs metas dists
    exact ⟨(render_proj docs metas dists).1, (render_proj docs metas dists).2.1⟩

/-- C4 witness: a response with every optional field absent. -/
theorem optional_fields_tolerated_witness :
    (∃ rows, shapeRows exItemsNoEmb = some rows ∧
      (exItemsNoEmb.documents = none → ∀ r ∈ rows, r.document = none) ∧
      (exItemsNoEmb.metadatas = none → ∀ r ∈ rows, r.metadata = none) ∧
      ((exItemsNoEmb.embeddings = .absent ∨ exItemsNoEmb.embeddings = .nonArray) →
        ∀ r ∈ rows, r.embeddingSize = 0)) ∧
    ∀ (docs : List (Option String)) (metas : List (Option Meta)) (dists : List Rat),
      (renderSearchResults docs metas dists).map SearchResult.document
          = docs.take (min docs.length (min metas.length dists.length)) ∧
      (renderSearchResults docs metas dists).map SearchResult.metadata
          = metas.take (min docs.length (min metas.length dists.length)) :=
  optional_fields_tolerated exItemsNoEmb (Or.inl rfl) (Or.inl rfl)

/-- C6: with an empty query string, a render cycle makes zero calls to the
query endpoint of the remote service. -/
theorem empty_query_no_query_call (svc : Service) (selected : String) (topK : Nat) :
    ((renderApp svc selected "" topK).2.countP isQueryCall) = 0 := by
  by_cases h1 : (svc.collections.map Collection.name).isEmpty
  · simp [renderApp, h1, isQueryCall]
  · by_cases h2 : selected = ""
    · simp [renderApp, h1, h2, isQueryCall]
    · by_cases h3 : (svc.itemsOf selected).ids.isEmpty
      · simp [renderApp, h1, h2, h3, isQueryCall, List.countP_cons]
      · cases hsh : shapeRows (svc.itemsOf selected) with
        | none => simp [renderApp, h1, h2, h3, hsh, isQueryCall, List.countP_cons]
        | some rows => simp [renderApp, h1, h2, h3, hsh, isQueryCall, List.countP_cons]

/-- C7: an empty collection list reaches the explicit no-collections state
and an empty fetch response reaches the explicit no-items state; neither is
a thrown failure. -/
theorem empty_results_informational (svc1 svc2 : Service) (selected q1 q2 : String)
    (topK1 topK2 : Nat)
    (h1 : svc1.collections = [])
    (h2 : svc2.collections ≠ []) (h3 : selected ≠ "")
    (h4 : (svc2.itemsOf selected).ids = []) :
    (renderApp svc1 selected q1 topK1).1 = .noCollections ∧
    (renderApp svc2 selected q2 topK2).1 = .noItems := by
  constructor
  · have hc : (svc1.collections.map Collection.name).isEmpty = true := by
      simp [h1]
    simp [renderApp, hc]
  · have hne : (svc2.collections.map Collection.name).isEmpty = false := by
      simp [List.isEmpty_iff]
      exact h2
    have he : (svc2.itemsOf selected).ids.isEmpty = true := by
      simp [h4]
    simp [renderApp, hne, h3, he]

/-- A service with no collections at all. -/
def svcNoCollections : Service :=
  { collections := [], itemsOf := fun _ => exItemsNoEmb, storedOf := fun _ => [] }

/-- A service with one collection that has zero items. -/
def svcEmptyCollection : Service :=
  { collections := [{ id := "cid", name := "docs", metadata := none }]
    itemsOf := fun _ =>
      { ids := [], documents := none, metadatas := none, embeddings := .absent }
    storedOf := fun _ => [] }

/-- C7 witness: the two empty-result scenarios on concrete services. -/
theorem empty_results_informational_witness :
    (renderApp svcNoCollections "docs" "" 3).1 = .noCollections ∧
    (renderApp svcEmptyCollection "docs" "" 3).1 = .noItems :=
  empty_results_informational svcNoCollections svcEmptyCollection "docs" "" "" 3 3
    rfl (by decide) (by decide) rfl

/-- Once a client is cached, every later use observes it unchanged. -/
theorem runInitCalls_cached (c : Client) :
    ∀ (envs : List Env), runInitCalls (some c) envs = List.replicate envs.length c := by
  intro envs
  induction envs with
  | nil => rfl
  | cons env rest ih => simp [runInitCalls, cachedInitClient, ih, List.replicate_succ]

/-- C8: the provider builds the client from CHROMA_HOST (default localhost)
and CHROMA_PORT (default 8000), resolving them at the first construction
only, and every use for the rest of the process observes that same
instance. -/
theorem cached_client_singleton (env : Env) (envs : List Env)
    (hh : env.lookup "CHROMA_HOST" = none) (hp : env.lookup "CHROMA_PORT" = none) :
    init_client env = { host := "localhost", port := "8000" } ∧
    runInitCalls none (env :: envs) = List.replicate (envs.length + 1) (init_client env) := by
  constructor
  · simp [init_client, getenv, hh, hp]
  · simp [runInitCalls, cachedInitClient, runInitCalls_cached, List.replicate_succ]

/-- C8 witness: an empty environment first, then one that would change the
host; every call still observes the first client. -/
theorem cached_client_singleton_witness :
    init_client [] = { host := "localhost", port := "8000" } ∧
    runInitCalls none ([] :: [[("CHROMA_HOST", "other")]])
      = List.replicate ([[("CHROMA_HOST", "other")]].length + 1) (init_client []) :=
  cached_client_singleton [] [[("CHROMA_HOST", "other")]] rfl rfl

/-- C9: the Embedding Dimensions metric is the first row embedding length,
0 with no rows, and does not depend on any other row. -/
theorem embedding_dimensions_first (r : Row) (rest rest2 : List Row) :
    embeddingDimensions [] = 0 ∧
    embeddingDimensions (r :: rest) = r.embeddingSize ∧
    embeddingDimensions (r :: rest) = embeddingDimensions (r :: rest2) :=
  ⟨rfl, rfl, rfl⟩

end ChromaSpec
